import Mathlib

/-!
Verification of the intelligent-chat-assistant repository (three React source
files) against its natural-language specification.

The relevant program logic is shallowly embedded below:
  * `SmartChatGPT.js` (classifier variant): `INTENT_DEFS`, `FEATURE_SPECS`,
    `BASE_RULES`, `clamp`, `createZeroWeights`, `loadMemory`,
    `extractFeatures`, `scoreIntents`, `updateWeights`,
    `generateResponseForIntent`, `updateContext`, `decideIntent`,
    `typeOutAssistantMessage`.
  * `part_000` (rule-table variant): `INTENTS`, `updateContext`,
    `decideResponse`, `typeOutAssistantMessage`.
  * `part_001` (TensorFlow.js variant): the placeholder `model`
    (`tokenize`/`infer`) and `generateBotResponse`.

JavaScript numbers are modelled as rationals (all arithmetic in these
functions is addition/multiplication/comparison of small decimal constants;
IEEE rounding is not modelled).  JavaScript objects used as string-keyed
maps are modelled as `String → Option _`, with `Option.getD` standing for
the `||`-default idiom on absent keys.  JavaScript string primitives are
modelled over `List Char` with executable structural recursion (JS
`toLowerCase`/`trim`/`includes` restricted to ASCII case folding and ASCII
whitespace, which is all the embedded token tables use).
-/

namespace Chat

/-! ### JS string primitives -/

/-- JS `String.prototype.toLowerCase` (ASCII case folding). -/
def jsToLower (s : String) : String := ⟨s.data.map Char.toLower⟩

/-- Boolean infix test on lists (contiguous substring). -/
def listInfix (l₁ l₂ : List Char) : Bool := l₂.tails.any l₁.isPrefixOf

/-- JS `String.prototype.includes`: substring containment. -/
def jsIncludes (s tok : String) : Bool := listInfix tok.data s.data

/-- JS `String.prototype.startsWith`. -/
def jsStartsWith (s pre : String) : Bool := pre.data.isPrefixOf s.data

/-- JS `String.prototype.endsWith`. -/
def jsEndsWith (s suf : String) : Bool := suf.data.isSuffixOf s.data

/-- Trim whitespace characters from both ends of a character list. -/
def trimChars (l : List Char) : List Char :=
  ((l.dropWhile Char.isWhitespace).reverse.dropWhile Char.isWhitespace).reverse

/-- JS `String.prototype.trim`. -/
def jsTrim (s : String) : String := ⟨trimChars s.data⟩

/-- Helper for `splitWords`: accumulates the current word (reversed). -/
def splitWordsAux : List Char → List Char → List (List Char)
  | [], acc => if acc.isEmpty then [] else [acc.reverse]
  | c :: cs, acc =>
    if c.isWhitespace then
      if acc.isEmpty then splitWordsAux cs [] else acc.reverse :: splitWordsAux cs []
    else splitWordsAux cs (c :: acc)

/-- JS `text.split(/\s+/).filter(Boolean)`: maximal non-whitespace runs. -/
def splitWords (l : List Char) : List (List Char) := splitWordsAux l []

/-! ### Data model of `SmartChatGPT.js` -/

/-- One entry of `INTENT_DEFS`. -/
structure IntentDef where
  key : String
  baseBias : ℚ
  response : String
deriving DecidableEq, Repr

/-- `INTENT_DEFS` from `SmartChatGPT.js`. -/
def INTENT_DEFS : List IntentDef := [
  ⟨"greeting", 0.3, "Hi there! 👋 How can I help you today?"⟩,
  ⟨"smalltalk_status", 0.1, "I’m doing great! How about you?"⟩,
  ⟨"weather", 0.0, "I don’t pull live weather, but it looks like a great day to build something cool! 🌤️"⟩,
  ⟨"name", 0.05, "I’m SmartChatGPT — a lightweight assistant running entirely in your browser."⟩,
  ⟨"farewell", 0.2, "Goodbye! 👋 Have a great day!"⟩,
  ⟨"project_context", 0.1, "We’re using an Ocean Professional theme with a modern React UI. What would you like to build?"⟩,
  ⟨"generic_followup", 0.15, "Got it. Would you like a summary, suggestions, or examples to move forward?"⟩]

/-- The intent key set, in `INTENT_DEFS` order. -/
def intentKeys : List String := INTENT_DEFS.map (·.key)

/-- One entry of `FEATURE_SPECS`. -/
structure FeatureSpec where
  name : String
  tokens : List String
  weight : ℚ
deriving DecidableEq, Repr

/-- `FEATURE_SPECS` from `SmartChatGPT.js` (15 entries). -/
def FEATURE_SPECS : List FeatureSpec := [
  ⟨"kw_hello", ["hello", "hi", "hey", "yo"], 1⟩,
  ⟨"kw_how_are_you", ["how are you", "hows it going", "how r u"], 1⟩,
  ⟨"kw_weather", ["weather", "rain", "sunny", "forecast"], 1⟩,
  ⟨"kw_name", ["name", "who are you", "what are you"], 1⟩,
  ⟨"kw_thanks", ["thanks", "thank you", "thx", "appreciate"], 1⟩,
  ⟨"kw_bye", ["bye", "goodbye", "see you", "cya"], 1⟩,
  ⟨"kw_project", ["project", "build", "tech", "react", "frontend", "design", "theme"], 1⟩,
  ⟨"kw_help", ["help", "assist", "support"], 1⟩,
  ⟨"cue_question", ["?"], 1⟩,
  ⟨"cue_exclaim", ["!"], 1⟩,
  ⟨"sent_pos", [":)", "🙂", "😊", "👍", "great", "awesome"], 1⟩,
  ⟨"sent_neg", [":(", "🙁", "😔", "bad", "terrible"], 1⟩,
  ⟨"len_short", [], 1⟩,
  ⟨"len_medium", [], 1⟩,
  ⟨"len_long", [], 1⟩]

/-- `BASE_RULES` from `SmartChatGPT.js`: object lookup with `|| []` default. -/
def BASE_RULES (k : String) : List String :=
  if k = "greeting" then ["kw_hello", "sent_pos", "len_short"]
  else if k = "smalltalk_status" then ["kw_how_are_you", "sent_pos"]
  else if k = "weather" then ["kw_weather", "cue_question"]
  else if k = "name" then ["kw_name", "cue_question"]
  else if k = "farewell" then ["kw_bye", "sent_pos", "len_short"]
  else if k = "project_context" then ["kw_project", "kw_help"]
  else if k = "generic_followup" then ["cue_question", "len_long", "kw_help"]
  else []

/-- `clamp` from `SmartChatGPT.js`: `Math.max(lo, Math.min(hi, x))`. -/
def clamp (x lo hi : ℚ) : ℚ := max lo (min hi x)

/-! ### Feature extraction (`extractFeatures`) -/

/--
`extractFeatures` from `SmartChatGPT.js`.  The zero-initialised
`Float32Array` with the first `forEach` pass (which skips `len_` features,
leaving them 0) is the `map`; the three `findIndex`/assignment steps are the
`List.set` calls.  `List.findIdx` returns the list length when the name is
missing where JS `findIndex` returns `-1`; the three names are present, so
the `idx >= 0` guards of the source are never false and are dropped here.
-/
def extractFeatures (textRaw : String) : List ℚ :=
  let text := jsTrim (jsToLower textRaw)
  let words := splitWords text.data
  let wc := words.length
  let vec := FEATURE_SPECS.map fun spec =>
    if jsStartsWith spec.name "len_" then (0 : ℚ)
    else if spec.tokens.any (fun tok => jsIncludes text tok) then 1 else 0
  let lenShortIdx := FEATURE_SPECS.findIdx fun f => f.name = "len_short"
  let lenMediumIdx := FEATURE_SPECS.findIdx fun f => f.name = "len_medium"
  let lenLongIdx := FEATURE_SPECS.findIdx fun f => f.name = "len_long"
  if wc ≤ 3 then vec.set lenShortIdx 1
  else if wc ≤ 12 then vec.set lenMediumIdx 1
  else vec.set lenLongIdx 1

/-! ### Scoring and ranking (`scoreIntents`, `decideIntent`) -/

/--
A weight map: a JS object keyed by intent key holding numeric arrays.
`none` models an absent property (JS `undefined`).
-/
def WeightMap := String → Option (List ℚ)

/--
`scoreIntents` from `SmartChatGPT.js`.
For each intent: `dot(W_i, x) + baseBias + ruleBonus`, then an in-place
stable sort by descending score (`(a, b) => b.score - a.score`), modelled by
a stable insertion sort with the relation `b.score ≤ a.score`.
The source reads `w[i] || 0` (absent entry defaults to 0) and guards
`idx >= 0` on `findIndex` results (missing names give `findIdx = length`,
so the guard is `idx < length` here).
-/
def scoreIntents (weights : WeightMap) (features : List ℚ) : List (String × ℚ) :=
  let scores := INTENT_DEFS.map fun intent =>
    let w := (weights intent.key).getD []
    let dot := (List.range features.length).foldl
      (fun acc i => acc + (w.getD i 0) * (features.getD i 0)) 0
    let ruleFeats := BASE_RULES intent.key
    let ruleBonus := ruleFeats.foldl
      (fun acc fname =>
        let idx := FEATURE_SPECS.findIdx fun f => f.name = fname
        if idx < FEATURE_SPECS.length ∧ 0 < features.getD idx 0 then acc + 0.15 else acc) 0
    (intent.key, dot + intent.baseBias + ruleBonus)
  scores.insertionSort fun a b => b.2 ≤ a.2

/-- Result record of the component's `decideIntent` closure. -/
structure DecideResult where
  topIntent : String
  features : List ℚ
  ranked : List (String × ℚ)

/--
`decideIntent` from the `SmartChatGPT` component: extract features, rank
intents, return the head of the ranked list (`ranked[0]`; the list always
has 7 entries, so the `getD` junk default is unreachable).
-/
def decideIntent (weights : WeightMap) (text : String) : DecideResult :=
  let feats := extractFeatures text
  let ranked := scoreIntents weights feats
  ⟨((ranked.getD 0 ("", 0)).1), feats, ranked⟩

/-! ### Online update (`updateWeights`) -/

/--
`updateWeights` from `SmartChatGPT.js`, at explicit `lr`, `clampRange`,
`decay` (the source defaults them to `0.1`, `2.0`, `0.01`).  The chosen
intent's row is reinforced and clamped; every other `INTENT_DEFS` row is
decayed multiplicatively and snapped to 0 below `1e-4`; keys outside
`INTENT_DEFS` other than the chosen one are untouched.  Rows are read with
the source's `copy[key] || Array(featureCount).fill(0)` default; the
element reads `w[i]` are modelled as `getD i 0`, which agrees with the
source whenever the row has at least `features.length` entries (the shape
every theorem below assumes; a shorter JS row would produce `NaN`s, which
the rational model does not represent).
-/
def updateWeights (weights : WeightMap) (intentKey : String) (features : List ℚ)
    (lr clampRange decay : ℚ) : WeightMap :=
  let featureCount := features.length
  let wChosen := (weights intentKey).getD (List.replicate featureCount 0)
  let wChosen2 := (List.range featureCount).map fun i =>
    clamp ((wChosen.getD i 0) + lr * (features.getD i 0)) (-clampRange) clampRange
  fun k =>
    if k = intentKey then some wChosen2
    else if k ∈ intentKeys then
      let w := (weights k).getD (List.replicate featureCount 0)
      some ((List.range featureCount).map fun i =>
        let v := (w.getD i 0) * (1 - decay)
        if |v| < 0.0001 then 0 else v)
    else weights k

/-! ### Context and response generation -/

/-- The component's context state `{ lastIntent, history }`. -/
structure Context where
  lastIntent : Option String
  history : List String

/-- JS `a || b` on an optional string (both `undefined` and `''` are falsy). -/
def jsOrStr (a b : Option String) : Option String :=
  match a with
  | some s => if s = "" then b else some s
  | none => b

/--
`updateContext` from `SmartChatGPT.js`:
`lastIntent = decidedIntent || context.lastIntent || null`;
history is truncated to its last 2 entries (`slice(-2)`) before appending
the new user text.
-/
def updateContext (context : Context) (userText : String) (decidedIntent : Option String) :
    Context :=
  { lastIntent := jsOrStr decidedIntent (jsOrStr context.lastIntent none),
    history := context.history.drop (context.history.length - 2) ++ [userText] }

/-- Placeholder intent definition; `INTENT_DEFS` always contains
`generic_followup`, so the fallback chain below never reaches it. -/
def dummyIntentDef : IntentDef := ⟨"", 0, ""⟩

/--
`generateResponseForIntent` from `SmartChatGPT.js`.  `def` is the matched
intent definition, falling back to `generic_followup` when the key is
unknown; then three sequential early returns produce the contextual
variants.
-/
def generateResponseForIntent (intentKey : String) (context : Context) : String :=
  let d := (((INTENT_DEFS.find? fun x => x.key = intentKey).or
      (INTENT_DEFS.find? fun x => x.key = "generic_followup")).getD dummyIntentDef)
  if context.lastIntent = some intentKey then
    d.response ++ " By the way, I recall we were on the same topic earlier."
  else if intentKey = "greeting" ∧ 0 < context.history.length then
    d.response ++ " I remember our recent chat—ready to continue?"
  else if intentKey = "generic_followup" ∧
      (context.lastIntent = some "project_context" ∨ context.lastIntent = some "help") then
    "Makes sense. Would examples or a quick outline help you proceed?"
  else d.response

/-! ### Typing animation (`typeOutAssistantMessage`, identical in
`SmartChatGPT.js` and `part_000`) -/

/-- A chat message; `typingId` is `none` when the JS object lacks the
property. -/
structure Message where
  role : String
  content : String
  typingId : Option String
deriving DecidableEq, Repr

/--
One iteration of the typing loop: `current += fullText[i]` followed by
`setMessages(prev => prev.map(m => m.typingId === typingId ? { ...m,
content: current } : m))`.  The accumulated characters are carried as a
list. -/
def typeStep (tid : String) (st : List Char × List Message) (ch : Char) :
    List Char × List Message :=
  let current := st.1 ++ [ch]
  (current, st.2.map fun m =>
    if m.typingId = some tid then { m with content := ⟨current⟩ } else m)

/--
`typeOutAssistantMessage`: append an empty assistant message tagged with a
typing id, reveal `fullText` one character per loop iteration, then strip
the typing id.  The id comes from `Math.random().toString(36)`; it is a
parameter here.  Timing delays have no effect on the message list and are
omitted.
-/
def typeOutAssistantMessage (msgs : List Message) (fullText : String) (tid : String) :
    List Message :=
  let msgs1 := msgs ++ [⟨"assistant", "", some tid⟩]
  let st := fullText.data.foldl (typeStep tid) ([], msgs1)
  st.2.map fun m => if m.typingId = some tid then { m with typingId := none } else m

/-- The message list shown after the append and the first `k` characters of
the typing loop. -/
def typeOutStateAfter (msgs : List Message) (fullText : String) (tid : String) (k : ℕ) :
    List Message :=
  ((fullText.data.take k).foldl (typeStep tid) ([], msgs ++ [⟨"assistant", "", some tid⟩])).2

/-! ### Rule-table variant (`part_000`) -/

/-- One entry of `INTENTS`. -/
structure RuleIntent where
  key : String
  patterns : List String
  response : String
deriving DecidableEq, Repr

/-- `INTENTS` from `part_000`. -/
def INTENTS : List RuleIntent := [
  ⟨"greeting", ["hello", "hi", "hey"], "Hi there! 👋 How can I help you today?"⟩,
  ⟨"help", ["help", "assist", "support"], "Sure, tell me what you need help with and I can guide you."⟩,
  ⟨"thanks", ["thank", "thanks", "thx"], "You’re very welcome! 😊 Anything else I can do?"⟩,
  ⟨"bye", ["bye", "goodbye", "see you"], "Goodbye! 👋 Have a great day!"⟩,
  ⟨"theme", ["theme", "color", "design"], "We’re using a modern ocean-inspired style with blue and amber accents for clarity and focus."⟩]

/--
`decideResponse` from `part_000`: first intent (in `INTENTS` order) with a
pattern occurring in the lowercased text wins, with the same-topic suffix
when `context.lastIntent` equals its key; otherwise the three fallbacks.
-/
def decideResponse (userText : String) (context : Context) : String :=
  let lower := jsToLower userText
  match INTENTS.find? (fun intent => intent.patterns.any fun p => jsIncludes lower p) with
  | some intent =>
    if context.lastIntent = some intent.key then
      intent.response ++ " By the way, I recall we were on the same topic earlier."
    else intent.response
  | none =>
    if context.lastIntent = some "help" then
      "Could you share more specifics? For example: the goal, constraints, or where you’re stuck."
    else if jsEndsWith lower "?" then
      "Great question! I can help you explore possible approaches or explain the concepts involved."
    else "Got it. Would you like a summary, suggestions, or examples to move forward?"

/--
`updateContext` from `part_000`: keyword-driven `lastIntent` and the same
`slice(-2)` history truncation as the classifier variant.
-/
def updateContextRules (context : Context) (userText : String) : Context :=
  let lower := jsToLower userText
  let li :=
    if jsIncludes lower "help" then "help"
    else if jsIncludes lower "hello" ∨ jsIncludes lower "hi" ∨ jsIncludes lower "hey" then
      "greeting"
    else if jsIncludes lower "thanks" then "thanks"
    else if jsIncludes lower "bye" then "bye"
    else if jsIncludes lower "theme" ∨ jsIncludes lower "color" then "theme"
    else "general"
  { lastIntent := some li,
    history := context.history.drop (context.history.length - 2) ++ [userText] }

/-! ### TensorFlow.js variant (`part_001`) -/

/-- The alphabet string of the placeholder model. -/
def alphabet : String := "abcdefghijklmnopqrstuvwxyz "

/-- `charIndex.get(ch) || 0`: the `forEach` over the alphabet stores each
character under its 0-based position + 1 (the alphabet has no repeated
characters, so the stored value is the position of the character);
characters outside the map give `undefined`, hence `|| 0`. -/
def charIndexGet (c : Char) : ℚ :=
  if c ∈ alphabet.data then (alphabet.data.indexOf c : ℚ) + 1 else 0

/-- `model.tokenize` from `part_001`: per-character alphabet codes of the
lowercased text, `[0]` when there are none. -/
def tokenize (text : String) : List ℚ :=
  let lower := jsToLower text
  let tokens := lower.data.map charIndexGet
  if tokens.isEmpty then [0] else tokens

/-- `model.infer` from `part_001`: `sum(tokens) + mean(tokens)`, the
placeholder tensor reduction.  `tokenize` never returns an empty list, so
the mean's divisor is nonzero at every call site. -/
def infer (tokens : List ℚ) : ℚ := tokens.sum + tokens.sum / (tokens.length : ℚ)

/--
`generateBotResponse` from `part_001`: empty-input guard, keyword rules,
then thresholds 50 and 150 on the placeholder score.
-/
def generateBotResponse (userText : String) : String :=
  let text := jsTrim userText
  if text = "" then "I\x27m here whenever you\x27re ready."
  else
    let tokens := tokenize text
    let score := infer tokens
    let lower := jsToLower text
    if jsIncludes lower "hello" ∨ jsIncludes lower "hi" then
      "Hi there! ðŸ‘‹ What would you like to chat about?"
    else if jsIncludes lower "help" then
      "Sure! Tell me a bit more about what you need help with."
    else if jsIncludes lower "color" ∨ jsIncludes lower "theme" then
      "We are using the Ocean Professional theme: blue (#2563EB), amber (#F59E0B), and a clean surface."
    else if score < 50 then "Interesting! Could you elaborate a bit more?"
    else if score < 150 then "Got it. That makes sense. Do you have any follow-up questions?"
    else "Thanks for the details! If you want, I can summarize or suggest next steps."

/-! ### Persistence (`loadMemory`) -/

/-- Parsed JSON values (`JSON.parse` results). -/
inductive JVal where
  | null : JVal
  | bool : Bool → JVal
  | num : ℚ → JVal
  | str : String → JVal
  | arr : List JVal → JVal
  | obj : List (String × JVal) → JVal
deriving Repr

/-- The component's memory record `{ weights, stats, learningEnabled }`.
The weights are kept as a string-keyed property map of raw JSON values, the
shape `loadMemory` actually guarantees. -/
structure Memory where
  weights : String → Option JVal
  stats : JVal
  learningEnabled : JVal

/-- `createZeroWeights` from `SmartChatGPT.js`: an object with a zero array
of length `FEATURE_SPECS.length` per intent. -/
def createZeroWeights : JVal :=
  JVal.obj (INTENT_DEFS.map fun intent =>
    (intent.key, JVal.arr (List.replicate FEATURE_SPECS.length (JVal.num 0))))

/-- Property lookup on a JS object literal (first binding wins, as produced
by `JSON.parse`). -/
def lookupProp (fs : List (String × JVal)) (k : String) : Option JVal :=
  (fs.find? fun p => p.1 = k).map (·.2)

/--
The string-keyed properties of a parsed root value, or `none` when the
validation loop would throw.  Reading and assigning `weights[intent.key]`
works on objects; on arrays it works too but named (non-index) properties
start out absent, so an array root behaves like an empty object at the
intent keys; on `null` the read throws and on other primitives the strict-
mode assignment throws, landing in the `catch`.
-/
def rootProps : JVal → Option (List (String × JVal))
  | JVal.obj fs => some fs
  | JVal.arr _ => some []
  | _ => none

/-- The shape test of the validation loop:
`Array.isArray(weights[k]) && weights[k].length === featureCount`. -/
def validRow (v : Option JVal) : Bool :=
  match v with
  | some (JVal.arr xs) => xs.length = FEATURE_SPECS.length
  | _ => false

/-- The validation loop of `loadMemory`: every intent key whose entry is
not an array of length `FEATURE_SPECS.length` is replaced by a zero array;
everything else is left as loaded. -/
def validateWeights (fs : List (String × JVal)) : String → Option JVal := fun k =>
  if k ∈ intentKeys ∧ ¬ validRow (lookupProp fs k) then
    some (JVal.arr (List.replicate FEATURE_SPECS.length (JVal.num 0)))
  else lookupProp fs k

/-- JS truthiness of a `localStorage.getItem` result (`null` and `''` are
falsy). -/
def jsTruthyStr : Option String → Bool
  | some s => s ≠ ""
  | none => false

/-- The catch-branch result of `loadMemory` (also the all-absent result):
zero weights, zero stats, learning enabled. -/
def defaultMemory : Memory :=
  { weights := fun k =>
      lookupProp (INTENT_DEFS.map fun intent =>
        (intent.key, JVal.arr (List.replicate FEATURE_SPECS.length (JVal.num 0)))) k,
    stats := JVal.obj [("messages", JVal.num 0), ("updates", JVal.num 0)],
    learningEnabled := JVal.bool true }

/--
`loadMemory` from `SmartChatGPT.js`.  `parse` stands for `JSON.parse`
(`none` = throws); `wJ`, `sJ`, `lJ` are the three `localStorage.getItem`
results.  Any exception along the way (failed parse, or a root weights
value the validation loop cannot index) falls through to the catch branch,
which returns safe defaults.
-/
def loadMemory (parse : String → Option JVal) (wJ sJ lJ : Option String) : Memory :=
  let attempt : Option Memory :=
    (if jsTruthyStr wJ then parse (wJ.getD "") else some createZeroWeights).bind fun weights =>
    (if jsTruthyStr sJ then parse (sJ.getD "")
      else some (JVal.obj [("messages", JVal.num 0), ("updates", JVal.num 0)])).bind fun stats =>
    (if jsTruthyStr lJ then parse (lJ.getD "") else some (JVal.bool true)).bind
      fun learningEnabled =>
    (rootProps weights).bind fun fs =>
    some ⟨validateWeights fs, stats, learningEnabled⟩
  match attempt with
  | some m => m
  | none => defaultMemory

/-! ### Specification-side definitions (used to state the claims) -/

/-- The same-topic suffix appended by both response generators. -/
def sameTopicSuffix : String := " By the way, I recall we were on the same topic earlier."

/-- Every string `generateResponseForIntent` can return: the canned intent
responses, each with the optional same-topic suffix, the
greeting-with-history variant and the project follow-up variant. -/
def classifierReplySet : List String :=
  INTENT_DEFS.map (·.response) ++ INTENT_DEFS.map (fun d => d.response ++ sameTopicSuffix) ++
  ["Hi there! 👋 How can I help you today? I remember our recent chat—ready to continue?",
   "Makes sense. Would examples or a quick outline help you proceed?"]

/-- Every string `decideResponse` can return: the canned rule responses,
each with the optional same-topic suffix, and the three fallbacks. -/
def ruleReplySet : List String :=
  INTENTS.map (·.response) ++ INTENTS.map (fun d => d.response ++ sameTopicSuffix) ++
  ["Could you share more specifics? For example: the goal, constraints, or where you’re stuck.",
   "Great question! I can help you explore possible approaches or explain the concepts involved.",
   "Got it. Would you like a summary, suggestions, or examples to move forward?"]

/-- The claim's per-intent score: the dot product of the intent's weight
vector with the features, plus `baseBias`, plus 0.15 for each rule feature
of the intent whose feature value is positive. -/
def specScore (weights : WeightMap) (features : List ℚ) (intent : IntentDef) : ℚ :=
  (List.zipWith (· * ·) ((weights intent.key).getD []) features).sum + intent.baseBias +
    0.15 * (((BASE_RULES intent.key).countP fun fname =>
      0 < features.getD (FEATURE_SPECS.findIdx fun f => f.name = fname) 0) : ℚ)

/-- The lowercased, trimmed input of `extractFeatures`. -/
def lowerTrim (s : String) : String := jsTrim (jsToLower s)

/-- The whitespace-separated word count of `extractFeatures`. -/
def wordCount (s : String) : ℕ := (splitWords (lowerTrim s).data).length

/-- The first pass of `extractFeatures` over a lowercased trimmed text:
token features set, length features still 0. -/
def featureBase (text : String) : List ℚ :=
  FEATURE_SPECS.map fun spec =>
    if jsStartsWith spec.name "len_" then (0 : ℚ)
    else if spec.tokens.any (fun tok => jsIncludes text tok) then 1 else 0

/-- A `JSON.parse` oracle mapping the stored weights string to an object
whose `greeting` entry is a length-15 array of strings (well-formed JSON
that the validation loop accepts unchanged). -/
def badParse : String → Option JVal := fun s =>
  if s = "W" then some (JVal.obj [("greeting", JVal.arr (List.replicate 15 (JVal.str "x")))])
  else none

/-- A weight map giving every intent the zero vector (used to instantiate
hypotheses at concrete inputs). -/
def zeroWeightMap : WeightMap := fun k =>
  if k ∈ intentKeys then some (List.replicate 15 (0 : ℚ)) else none

/-! ## Theorems -/

/-- C10: both `updateContext` variants truncate the previous history to its
last two entries (JS `slice(-2)`) and append the new user text, so the
resulting history always has at most 3 entries and ends with the new user
text; the bound therefore holds after every message exchange. -/
theorem c10_updateContext_history_bound (context : Context) (userText : String)
    (decidedIntent : Option String) :
    (updateContext context userText decidedIntent).history =
      context.history.drop (context.history.length - 2) ++ [userText] ∧
    (updateContext context userText decidedIntent).history.length ≤ 3 ∧
    (updateContext context userText decidedIntent).history.getLast? = some userText ∧
    (updateContextRules context userText).history =
      context.history.drop (context.history.length - 2) ++ [userText] ∧
    (updateContextRules context userText).history.length ≤ 3 ∧
    (updateContextRules context userText).history.getLast? = some userText := by
  refine ⟨rfl, ?_, ?_, rfl, ?_, ?_⟩ <;>
    simp [updateContext, updateContextRules, List.getLast?_concat] <;> omega

set_option maxRecDepth 8000 in
/-- C4: for every decided intent key and context, and for every user text
and context, the generated reply (in either variant) is one of the finitely
many hard-coded strings: a canned intent response, the same-topic variant,
the greeting-with-history variant, the project follow-up variant or one of
the fallbacks; no reply text is computed from the user's message content
(each reply belongs to a fixed finite set independent of the input). -/
theorem c4_replies_are_canned (intentKey : String) (context : Context)
    (userText : String) (context2 : Context) :
    generateResponseForIntent intentKey context ∈ classifierReplySet ∧
    decideResponse userText context2 ∈ ruleReplySet := by
  constructor
  · by_cases h1 : intentKey = "greeting"
    · subst h1; simp only [generateResponseForIntent]
      split_ifs <;> first | decide | simp_all
    · by_cases h2 : intentKey = "smalltalk_status"
      · subst h2; simp only [generateResponseForIntent]
        split_ifs <;> first | decide | simp_all
      · by_cases h3 : intentKey = "weather"
        · subst h3; simp only [generateResponseForIntent]
          split_ifs <;> first | decide | simp_all
        · by_cases h4 : intentKey = "name"
          · subst h4; simp only [generateResponseForIntent]
            split_ifs <;> first | decide | simp_all
          · by_cases h5 : intentKey = "farewell"
            · subst h5; simp only [generateResponseForIntent]
              split_ifs <;> first | decide | simp_all
            · by_cases h6 : intentKey = "project_context"
              · subst h6; simp only [generateResponseForIntent]
                split_ifs <;> first | decide | simp_all
              · by_cases h7 : intentKey = "generic_followup"
                · subst h7; simp only [generateResponseForIntent]
                  split_ifs <;> first | decide | simp_all
                · have hfind : INTENT_DEFS.find? (fun x => x.key = intentKey) = none := by
                    rw [List.find?_eq_none]
                    intro x hx
                    fin_cases hx <;> simp_all [INTENT_DEFS, eq_comm]
                  simp only [generateResponseForIntent, hfind, Option.or]
                  split_ifs <;> first | decide | simp_all
  · cases hfind : INTENTS.find? (fun intent =>
      intent.patterns.any fun p => jsIncludes (jsToLower userText) p) with
    | none =>
      simp only [decideResponse, hfind]
      split_ifs <;> decide
    | some intent =>
      have hmem : intent ∈ INTENTS := List.mem_of_find?_eq_some hfind
      simp only [decideResponse, hfind]
      fin_cases hmem <;> split_ifs <;> decide

/-- C5: `decideResponse` returns the response of the first intent in
`INTENTS` order one of whose patterns is a substring of the lowercased
text, with the same-topic suffix appended exactly when `context.lastIntent`
equals that intent's key; when no intent matches it returns the
help-specific follow-up if `context.lastIntent` is `help`, else the
question fallback if the lowercased text ends with `?`, else the generic
fallback. -/
theorem c5_decideResponse_first_match (userText : String) (context : Context) :
    (∀ (pre post : List RuleIntent) (intent : RuleIntent),
      INTENTS = pre ++ intent :: post →
      (∀ it ∈ pre, ¬ (it.patterns.any fun p => jsIncludes (jsToLower userText) p) = true) →
      (intent.patterns.any fun p => jsIncludes (jsToLower userText) p) = true →
      decideResponse userText context =
        if context.lastIntent = some intent.key then intent.response ++ sameTopicSuffix
        else intent.response) ∧
    ((∀ it ∈ INTENTS, ¬ (it.patterns.any fun p => jsIncludes (jsToLower userText) p) = true) →
      decideResponse userText context =
        if context.lastIntent = some "help" then
          "Could you share more specifics? For example: the goal, constraints, or where you’re stuck."
        else if jsEndsWith (jsToLower userText) "?" then
          "Great question! I can help you explore possible approaches or explain the concepts involved."
        else "Got it. Would you like a summary, suggestions, or examples to move forward?") := by
  constructor
  · intro pre post intent hsplit hpre hintent
    have hfind : INTENTS.find? (fun it => it.patterns.any fun p =>
        jsIncludes (jsToLower userText) p) = some intent := by
      rw [hsplit, List.find?_append, List.find?_eq_none.mpr hpre, Option.none_or]
      exact List.find?_cons_of_pos post hintent
    simp only [decideResponse, hfind, sameTopicSuffix]
  · intro hnone
    have hfind : INTENTS.find? (fun it => it.patterns.any fun p =>
        jsIncludes (jsToLower userText) p) = none := List.find?_eq_none.mpr hnone
    simp only [decideResponse, hfind]

/-- C5 witness: on the input `hello there` with empty context, the first
matching intent is `greeting` (nothing precedes it) and the greeting
response is returned without suffix. -/
theorem c5_witness :
    decideResponse "hello there" ⟨none, []⟩ = "Hi there! 👋 How can I help you today?" := by
  have h := (c5_decideResponse_first_match "hello there" ⟨none, []⟩).1 []
    [⟨"help", ["help", "assist", "support"], "Sure, tell me what you need help with and I can guide you."⟩,
     ⟨"thanks", ["thank", "thanks", "thx"], "You’re very welcome! 😊 Anything else I can do?"⟩,
     ⟨"bye", ["bye", "goodbye", "see you"], "Goodbye! 👋 Have a great day!"⟩,
     ⟨"theme", ["theme", "color", "design"], "We’re using a modern ocean-inspired style with blue and amber accents for clarity and focus."⟩]
    ⟨"greeting", ["hello", "hi", "hey"], "Hi there! 👋 How can I help you today?"⟩
    (by decide) (by simp) (by decide)
  simpa using h

/-- Messages that do not carry the fresh typing id are left unchanged by
the per-step map. -/
theorem map_fresh_typingId (tid : String) (g : Message → Message) (ms : List Message)
    (hfresh : ∀ m ∈ ms, m.typingId ≠ some tid) :
    (ms.map fun m => if m.typingId = some tid then g m else m) = ms := by
  induction ms with
  | nil => rfl
  | cons m ms ih =>
    have hm := hfresh m (List.mem_cons_self m ms)
    simp only [List.map_cons, if_neg hm]
    rw [ih fun x hx => hfresh x (List.mem_cons_of_mem m hx)]

/-- Invariant of the typing loop: after consuming the characters `l`, the
accumulated text is `cur ++ l` and only the tagged trailing message has
changed, its content being the accumulated text. -/
theorem typeLoop_eq (tid : String) (ms : List Message)
    (hfresh : ∀ m ∈ ms, m.typingId ≠ some tid) :
    ∀ (l cur : List Char),
      l.foldl (typeStep tid) (cur, ms ++ [⟨"assistant", ⟨cur⟩, some tid⟩]) =
        (cur ++ l, ms ++ [⟨"assistant", ⟨cur ++ l⟩, some tid⟩]) := by
  intro l
  induction l with
  | nil => intro cur; simp
  | cons c cs ih =>
    intro cur
    rw [List.foldl_cons]
    have hstep : typeStep tid (cur, ms ++ [⟨"assistant", ⟨cur⟩, some tid⟩]) c =
        (cur ++ [c], ms ++ [⟨"assistant", ⟨cur ++ [c]⟩, some tid⟩]) := by
      simp only [typeStep, List.map_append, List.map_cons, List.map_nil]
      rw [map_fresh_typingId tid _ ms hfresh]
      simp
    rw [hstep, ih (cur ++ [c])]
    simp

/-- C6: `typeOutAssistantMessage` (identical in both chat variants),
run with a typing id not carried by any existing message, reveals the reply
one character at a time: after `k` loop steps the appended assistant
message's content is the length-`k` prefix of the reply (so each step grows
the displayed text by exactly one character and it is always a prefix),
every other message is unchanged, and on completion the appended assistant
message carries the full reply with the `typingId` marker removed. -/
theorem c6_typeOut_animation (msgs : List Message) (fullText tid : String)
    (hfresh : ∀ m ∈ msgs, m.typingId ≠ some tid) :
    (∀ k, typeOutStateAfter msgs fullText tid k =
      msgs ++ [⟨"assistant", ⟨fullText.data.take k⟩, some tid⟩]) ∧
    (∀ k, fullText.data.take k <+: fullText.data) ∧
    (∀ k < fullText.length,
      (⟨fullText.data.take (k + 1)⟩ : String).length =
        (⟨fullText.data.take k⟩ : String).length + 1) ∧
    typeOutAssistantMessage msgs fullText tid = msgs ++ [⟨"assistant", fullText, none⟩] := by
  refine ⟨?_, fun k => List.take_prefix k fullText.data, ?_, ?_⟩
  · intro k
    have h := typeLoop_eq tid msgs hfresh (fullText.data.take k) []
    simp only [List.nil_append] at h
    simpa [typeOutStateAfter] using congrArg Prod.snd h
  · intro k hk
    have hk' : k < fullText.data.length := hk
    show (fullText.data.take (k + 1)).length = (fullText.data.take k).length + 1
    simp [List.length_take]
    omega
  · have h := typeLoop_eq tid msgs hfresh fullText.data []
    simp only [List.nil_append] at h
    simp only [typeOutAssistantMessage, h, List.map_append, List.map_cons, List.map_nil]
    rw [map_fresh_typingId tid _ msgs hfresh]
    simp

/-- C6 witness: typing out `ab` after a single untagged user message ends
with exactly the appended assistant message holding the full text, and the
intermediate state after one step shows the one-character prefix. -/
theorem c6_witness :
    typeOutAssistantMessage [⟨"user", "hi", none⟩] "ab" "t1" =
      [⟨"user", "hi", none⟩, ⟨"assistant", "ab", none⟩] ∧
    typeOutStateAfter [⟨"user", "hi", none⟩] "ab" "t1" 1 =
      [⟨"user", "hi", none⟩, ⟨"assistant", "a", some "t1"⟩] := by
  have h := c6_typeOut_animation [⟨"user", "hi", none⟩] "ab" "t1" (by decide)
  exact ⟨by simpa using h.2.2.2, by simpa using h.1 1⟩

/-- C8: the TensorFlow.js variant's model is a placeholder numeric
reduction: `tokenize` maps each character of the lowercased text to its
1-based position in the alphabet `abcdefghijklmnopqrstuvwxyz ` (0 for any
other character) and returns `[0]` for empty text; `infer` is the exact sum
of the tokens plus their arithmetic mean; and outside the keyword rules the
reply is chosen by comparing that score against the thresholds 50 and
150. -/
theorem c8_tfjs_placeholder (userText : String) :
    (∀ c, c ∉ alphabet.data → charIndexGet c = 0) ∧
    (∀ i < 27, charIndexGet (alphabet.data.getD i ' ') = (i : ℚ) + 1) ∧
    (userText = "" → tokenize userText = [0]) ∧
    (userText ≠ "" → tokenize userText = (jsToLower userText).data.map charIndexGet) ∧
    (∀ tokens : List ℚ, infer tokens = tokens.sum + tokens.sum / (tokens.length : ℚ)) ∧
    (jsTrim userText = "" →
      generateBotResponse userText = "I\x27m here whenever you\x27re ready.") ∧
    (jsTrim userText ≠ "" →
      ¬ (jsIncludes (jsToLower (jsTrim userText)) "hello" = true ∨
         jsIncludes (jsToLower (jsTrim userText)) "hi" = true) →
      ¬ jsIncludes (jsToLower (jsTrim userText)) "help" = true →
      ¬ (jsIncludes (jsToLower (jsTrim userText)) "color" = true ∨
         jsIncludes (jsToLower (jsTrim userText)) "theme" = true) →
      generateBotResponse userText =
        if infer (tokenize (jsTrim userText)) < 50 then
          "Interesting! Could you elaborate a bit more?"
        else if infer (tokenize (jsTrim userText)) < 150 then
          "Got it. That makes sense. Do you have any follow-up questions?"
        else "Thanks for the details! If you want, I can summarize or suggest next steps.") := by
  have hpos : ∀ i < 27, charIndexGet (alphabet.data.getD i ' ') = (i : ℚ) + 1 := by
    have hnat : ∀ i < 27, alphabet.data.indexOf (alphabet.data.getD i ' ') = i := by decide
    have hmem : ∀ i < 27, alphabet.data.getD i ' ' ∈ alphabet.data := by decide
    intro i hi
    rw [charIndexGet, if_pos (hmem i hi), hnat i hi]
  refine ⟨?_, hpos, ?_, ?_, fun tokens => rfl, ?_, ?_⟩
  · intro c hc; simp [charIndexGet, hc]
  · intro h; subst h; rfl
  · intro h
    have hdata : userText.data ≠ [] := by
      intro hd
      exact h (by cases userText with | mk l => cases hd; rfl)
    have : ((jsToLower userText).data.map charIndexGet).isEmpty = false := by
      simp [jsToLower, hdata]
    simp [tokenize, this]
  · intro h; simp [generateBotResponse, h]
  · intro h h1 h2 h3
    simp only [generateBotResponse]
    split_ifs <;> first | rfl | tauto

/-- C8 witness: the input `xyz` hits no keyword rule; its score is
24 + 25 + 26 plus the mean 25, i.e. 100, which lands in the middle
threshold band; and `a` is the first alphabet character. -/
theorem c8_witness :
    generateBotResponse "xyz" = "Got it. That makes sense. Do you have any follow-up questions?" ∧
    charIndexGet (alphabet.data.getD 0 ' ') = 1 := by
  have h := c8_tfjs_placeholder "xyz"
  refine ⟨?_, by simpa using h.2.1 0 (by norm_num)⟩
  have h7 := h.2.2.2.2.2.2 (by decide) (by decide) (by decide) (by decide)
  have hx : alphabet.data.indexOf 'x' = 23 := by decide
  have hy : alphabet.data.indexOf 'y' = 24 := by decide
  have hz : alphabet.data.indexOf 'z' = 25 := by decide
  have ht : tokenize (jsTrim "xyz") = [(24 : ℚ), 25, 26] := by
    show [charIndexGet 'x', charIndexGet 'y', charIndexGet 'z'] = _
    simp only [charIndexGet]
    rw [if_pos (by decide), if_pos (by decide), if_pos (by decide), hx, hy, hz]
    norm_num
  rw [h7, ht]
  norm_num [infer]

/-- Reading position `i < n` of a map over `List.range n`. -/
theorem getD_map_range (n i : ℕ) (f : ℕ → ℚ) (hi : i < n) :
    (((List.range n).map f).getD i 0) = f i := by
  rw [List.getD_eq_getElem?_getD, List.getElem?_map, List.getElem?_range hi]
  rfl

/-- C1: `updateWeights` at the default parameters (`lr = 0.1`,
`clampRange = 2.0`, `decay = 0.01`), on a weight map with a length-15 row
for every intent, a chosen intent key and a length-15 feature vector,
returns a map in which entry `i` of the chosen intent is
`clamp(w_i + 0.1 * x_i, -2, 2)` and entry `i` of every other intent is
`w_i * (1 - 0.01)`, snapped to 0 when its absolute value is below `1e-4`. -/
theorem c1_updateWeights_default (weights : WeightMap) (intentKey : String)
    (features : List ℚ) (hkey : intentKey ∈ intentKeys) (hlen : features.length = 15)
    (hshape : ∀ k ∈ intentKeys, ∃ row, weights k = some row ∧ row.length = 15) :
    (∀ row, weights intentKey = some row → ∀ i < 15,
      (((updateWeights weights intentKey features 0.1 2 0.01) intentKey).getD []).getD i 0 =
        clamp (row.getD i 0 + 0.1 * features.getD i 0) (-2) 2) ∧
    (∀ k ∈ intentKeys, k ≠ intentKey → ∀ row, weights k = some row → ∀ i < 15,
      (((updateWeights weights intentKey features 0.1 2 0.01) k).getD []).getD i 0 =
        if |row.getD i 0 * (1 - 0.01)| < 0.0001 then 0
        else row.getD i 0 * (1 - 0.01)) := by
  constructor
  · intro row hrow i hi
    simp only [updateWeights, if_pos rfl, hrow, Option.getD_some]
    rw [getD_map_range _ i _ (by omega)]
  · intro k hk hne row hrow i hi
    simp only [updateWeights, if_neg hne, if_pos hk, hrow, Option.getD_some]
    rw [getD_map_range _ i _ (by omega)]

/-- C1 witness: reinforcing `greeting` on the zero weight map with the
all-ones feature vector puts `clamp(0 + 0.1 * 1, -2, 2)` in entry 0 of the
`greeting` row and decays entry 0 of the `weather` row to 0. -/
theorem c1_witness :
    (((updateWeights zeroWeightMap "greeting" (List.replicate 15 1) 0.1 2 0.01)
        "greeting").getD []).getD 0 0 = clamp (0 + 0.1 * 1) (-2) 2 ∧
    (((updateWeights zeroWeightMap "greeting" (List.replicate 15 1) 0.1 2 0.01)
        "weather").getD []).getD 0 0 = if |(0 : ℚ) * (1 - 0.01)| < 0.0001 then 0
          else (0 : ℚ) * (1 - 0.01) := by
  have h := c1_updateWeights_default zeroWeightMap "greeting" (List.replicate 15 1)
    (by decide) (by simp)
    (fun k hk => ⟨List.replicate 15 0, by simp [zeroWeightMap, hk], by simp⟩)
  constructor
  · have h1 := h.1 (List.replicate 15 0) (by simp [zeroWeightMap]; decide) 0 (by norm_num)
    simpa using h1
  · have h2 := h.2 "weather" (by decide) (by decide) (List.replicate 15 0)
      (by simp [zeroWeightMap]; decide) 0 (by norm_num)
    simpa using h2

/-- C9: if every weight of every intent lies in `[-2, 2]` before a call to
`updateWeights` with the default parameters (and rows match the feature
vector's length), then every weight of every intent still lies in
`[-2, 2]` after the call: the chosen row is clamped into the interval and
decay never increases an entry's absolute value. -/
theorem c9_updateWeights_bounded (weights : WeightMap) (intentKey : String)
    (features : List ℚ)
    (hshape : ∀ k ∈ intentKeys, ∃ row, weights k = some row ∧
      row.length = features.length ∧ ∀ x ∈ row, -2 ≤ x ∧ x ≤ 2) :
    ∀ k ∈ intentKeys, ∀ x ∈ ((updateWeights weights intentKey features 0.1 2 0.01) k).getD [],
      -2 ≤ x ∧ x ≤ 2 := by
  intro k hk x hx
  by_cases hke : k = intentKey
  · subst hke
    simp only [updateWeights, if_pos rfl, Option.getD_some, List.mem_map] at hx
    obtain ⟨i, _, rfl⟩ := hx
    constructor
    · exact le_max_left _ _
    · exact max_le (by norm_num) (min_le_left _ _)
  · obtain ⟨row, hrow, hrowlen, hbound⟩ := hshape k hk
    simp only [updateWeights, if_neg hke, if_pos hk, hrow, Option.getD_some,
      List.mem_map, List.mem_range] at hx
    obtain ⟨i, hi, rfl⟩ := hx
    have hmem : row.getD i 0 ∈ row := by
      rw [List.getD_eq_getElem?_getD, List.getElem?_eq_getElem (by omega)]
      exact List.getElem_mem _
    have hb := hbound _ hmem
    split_ifs
    · norm_num
    · constructor <;> nlinarith [hb.1, hb.2]

/-- C9 witness: after reinforcing `greeting` on the zero weight map (all
weights in `[-2, 2]`) with the all-ones features, the first entry of the
`greeting` row, `0.1`, is still within `[-2, 2]`. -/
theorem c9_witness : -2 ≤ (1 / 10 : ℚ) ∧ (1 / 10 : ℚ) ≤ 2 := by
  have h := c9_updateWeights_bounded zeroWeightMap "greeting" (List.replicate 15 1)
    (fun k hk => ⟨List.replicate 15 0, by simp [zeroWeightMap, hk], by simp,
      fun x hx => by rw [List.eq_of_mem_replicate hx]; norm_num⟩)
  refine h "greeting" (by decide) (1 / 10) ?_
  show (1 / 10 : ℚ) ∈ (List.range (List.replicate 15 (1 : ℚ)).length).map fun i =>
    clamp (((zeroWeightMap "greeting").getD
        (List.replicate (List.replicate 15 (1 : ℚ)).length 0)).getD i 0 +
      0.1 * ((List.replicate 15 (1 : ℚ)).getD i 0)) (-2) 2
  refine List.mem_map.mpr ⟨0, by simp, ?_⟩
  have hz : zeroWeightMap "greeting" = some (List.replicate 15 0) := by
    simp [zeroWeightMap]; decide
  rw [hz]
  simp [clamp]
  norm_num

/-- Looking up any intent key in the zero-weights object yields its zero
row. -/
theorem lookupProp_zero (k : String) (hk : k ∈ intentKeys) :
    lookupProp (INTENT_DEFS.map fun intent =>
      (intent.key, JVal.arr (List.replicate FEATURE_SPECS.length (JVal.num 0)))) k =
    some (JVal.arr (List.replicate FEATURE_SPECS.length (JVal.num 0))) := by
  unfold lookupProp
  obtain ⟨d, hd, hdk⟩ := List.mem_map.mp hk
  have hsome : ((INTENT_DEFS.map fun intent =>
      (intent.key, JVal.arr (List.replicate FEATURE_SPECS.length (JVal.num 0)))).find?
        fun p => p.1 = k).isSome := by
    rw [List.find?_isSome]
    exact ⟨(d.key, JVal.arr (List.replicate FEATURE_SPECS.length (JVal.num 0))),
      List.mem_map_of_mem _ hd, by simp [hdk]⟩
  obtain ⟨p, hp⟩ := Option.isSome_iff_exists.mp hsome
  rw [hp]
  obtain ⟨d2, _, hd2e⟩ := List.mem_map.mp (List.mem_of_find?_eq_some hp)
  simp [← hd2e]

/-- The validation loop leaves the zero-weights object unchanged: every
intent row is already a valid length-15 array. -/
theorem validateWeights_zero (k : String) :
    validateWeights (INTENT_DEFS.map fun intent =>
      (intent.key, JVal.arr (List.replicate FEATURE_SPECS.length (JVal.num 0)))) k =
    lookupProp (INTENT_DEFS.map fun intent =>
      (intent.key, JVal.arr (List.replicate FEATURE_SPECS.length (JVal.num 0)))) k := by
  by_cases hk : k ∈ intentKeys
  · have hval : validRow (lookupProp (INTENT_DEFS.map fun intent =>
        (intent.key, JVal.arr (List.replicate FEATURE_SPECS.length (JVal.num 0)))) k) = true := by
      rw [lookupProp_zero k hk]
      simp [validRow]
    simp [validateWeights, hval]
  · simp [validateWeights, hk]

/-- C7 counterexample: with a stored weights JSON equal to
`{"greeting": ["x", ..., "x"]}` (a length-15 array of strings), `loadMemory`
keeps the string entries — the validation only checks `Array.isArray` and
the length — so it is not true that every intent key maps to a length-15
NUMERIC array in the result. -/
theorem c7_counterexample :
    ¬ (∀ k ∈ intentKeys, ∃ xs,
        (loadMemory badParse (some "W") none none).weights k = some (JVal.arr xs) ∧
        xs.length = 15 ∧ ∀ v ∈ xs, ∃ q, v = JVal.num q) := by
  intro h
  obtain ⟨xs, hxs, hlen, hnum⟩ := h "greeting" (by decide)
  have hw : (loadMemory badParse (some "W") none none).weights "greeting" =
      some (JVal.arr (List.replicate 15 (JVal.str "x"))) := rfl
  rw [hw] at hxs
  simp only [Option.some.injEq, JVal.arr.injEq] at hxs
  obtain ⟨q, hq⟩ := hnum (JVal.str "x") (by
    rw [← hxs]
    exact List.mem_replicate.mpr ⟨by norm_num, rfl⟩)
  exact JVal.noConfusion hq

/-- C7 (amended): `loadMemory` never throws (the model is total and every
exceptional path lands in the catch defaults); with no stored values, or
with any stored value that fails to parse, it returns zero weights for all
intents, stats `{messages: 0, updates: 0}` and `learningEnabled` true; the
validation replaces any intent entry that is not an array of length exactly
15 by a zero array and keeps valid entries as loaded; hence every intent
key maps to a length-15 array of JSON values (NOT necessarily numeric — see
the counterexample) in the result. -/
theorem c7_loadMemory_amended (parse : String → Option JVal) (wJ sJ lJ : Option String) :
    (wJ = none → sJ = none → lJ = none → loadMemory parse wJ sJ lJ = defaultMemory) ∧
    ((jsTruthyStr wJ = true ∧ parse (wJ.getD "") = none) ∨
     (jsTruthyStr sJ = true ∧ parse (sJ.getD "") = none) ∨
     (jsTruthyStr lJ = true ∧ parse (lJ.getD "") = none) →
     loadMemory parse wJ sJ lJ = defaultMemory) ∧
    (∀ k ∈ intentKeys, ∃ xs,
      (loadMemory parse wJ sJ lJ).weights k = some (JVal.arr xs) ∧
      xs.length = FEATURE_SPECS.length) ∧
    (∀ fs k, k ∈ intentKeys →
      (validRow (lookupProp fs k) = true → validateWeights fs k = lookupProp fs k) ∧
      (validRow (lookupProp fs k) = false →
        validateWeights fs k =
          some (JVal.arr (List.replicate FEATURE_SPECS.length (JVal.num 0))))) := by
  refine ⟨?_, ?_, ?_, ?_⟩
  · intro h1 h2 h3; subst h1; subst h2; subst h3
    have hred : loadMemory parse none none none =
        ⟨validateWeights (INTENT_DEFS.map fun intent =>
            (intent.key, JVal.arr (List.replicate FEATURE_SPECS.length (JVal.num 0)))),
          JVal.obj [("messages", JVal.num 0), ("updates", JVal.num 0)], JVal.bool true⟩ := rfl
    rw [hred]
    unfold defaultMemory
    congr 1
    funext k
    exact validateWeights_zero k
  · intro hdisj
    rcases hdisj with ⟨h1, h2⟩ | ⟨h1, h2⟩ | ⟨h1, h2⟩
    · simp [loadMemory, h1, h2]
    · cases hfirst : (if jsTruthyStr wJ then parse (wJ.getD "") else some createZeroWeights) with
      | none => simp [loadMemory, hfirst]
      | some w => simp [loadMemory, hfirst, h1, h2]
    · cases hfirst : (if jsTruthyStr wJ then parse (wJ.getD "") else some createZeroWeights) with
      | none => simp [loadMemory, hfirst]
      | some w =>
        cases hsecond : (if jsTruthyStr sJ then parse (sJ.getD "")
            else some (JVal.obj [("messages", JVal.num 0), ("updates", JVal.num 0)])) with
        | none => simp [loadMemory, hfirst, hsecond]
        | some s => simp [loadMemory, hfirst, hsecond, h1, h2]
  · intro k hk
    cases hfirst : (if jsTruthyStr wJ then parse (wJ.getD "") else some createZeroWeights) with
    | none =>
      refine ⟨List.replicate FEATURE_SPECS.length (JVal.num 0), ?_, List.length_replicate _ _⟩
      have : loadMemory parse wJ sJ lJ = defaultMemory := by simp [loadMemory, hfirst]
      rw [this]
      show lookupProp _ k = _
      exact lookupProp_zero k hk
    | some w =>
      cases hsecond : (if jsTruthyStr sJ then parse (sJ.getD "")
          else some (JVal.obj [("messages", JVal.num 0), ("updates", JVal.num 0)])) with
      | none =>
        refine ⟨List.replicate FEATURE_SPECS.length (JVal.num 0), ?_, List.length_replicate _ _⟩
        have : loadMemory parse wJ sJ lJ = defaultMemory := by
          simp [loadMemory, hfirst, hsecond]
        rw [this]
        exact lookupProp_zero k hk
      | some s =>
        cases hthird : (if jsTruthyStr lJ then parse (lJ.getD "") else some (JVal.bool true)) with
        | none =>
          refine ⟨List.replicate FEATURE_SPECS.length (JVal.num 0), ?_, List.length_replicate _ _⟩
          have : loadMemory parse wJ sJ lJ = defaultMemory := by
            simp [loadMemory, hfirst, hsecond, hthird]
          rw [this]
          exact lookupProp_zero k hk
        | some le =>
          cases hroot : rootProps w with
          | none =>
            refine ⟨List.replicate FEATURE_SPECS.length (JVal.num 0), ?_, List.length_replicate _ _⟩
            have : loadMemory parse wJ sJ lJ = defaultMemory := by
              simp [loadMemory, hfirst, hsecond, hthird, hroot]
            rw [this]
            exact lookupProp_zero k hk
          | some fs =>
            have hres : (loadMemory parse wJ sJ lJ).weights = validateWeights fs := by
              simp [loadMemory, hfirst, hsecond, hthird, hroot]
            rw [hres]
            by_cases hv : validRow (lookupProp fs k) = true
            · cases hlp : lookupProp fs k with
              | none => rw [hlp] at hv; simp [validRow] at hv
              | some v =>
                cases v with
                | arr xs =>
                  refine ⟨xs, ?_, ?_⟩
                  · rw [validateWeights, if_neg (by simp [hv]), hlp]
                  · rw [hlp] at hv
                    simpa [validRow] using hv
                | null => rw [hlp] at hv; simp [validRow] at hv
                | bool b => rw [hlp] at hv; simp [validRow] at hv
                | num q => rw [hlp] at hv; simp [validRow] at hv
                | str t => rw [hlp] at hv; simp [validRow] at hv
                | obj o => rw [hlp] at hv; simp [validRow] at hv
            · refine ⟨List.replicate FEATURE_SPECS.length (JVal.num 0), ?_,
                List.length_replicate _ _⟩
              rw [validateWeights, if_pos ⟨hk, hv⟩]
  · intro fs k hk
    constructor
    · intro hv; simp [validateWeights, hv]
    · intro hv; simp [validateWeights, hk, hv]

/-- C7 witness: a stored weights string whose parse fails yields the full
catch-branch defaults. -/
theorem c7_witness :
    loadMemory (fun _ => none) (some "x") none none = defaultMemory :=
  (c7_loadMemory_amended (fun _ => none) (some "x") none none).2.1 (Or.inl ⟨rfl, rfl⟩)

/-- An accumulating fold of pointwise additions is the accumulator plus the
sum of the mapped list. -/
theorem foldl_add_map {α : Type} (g : α → ℚ) :
    ∀ (l : List α) (a : ℚ), l.foldl (fun acc x => acc + g x) a = a + (l.map g).sum := by
  intro l
  induction l with
  | nil => intro a; simp
  | cons x xs ih => intro a; simp only [List.foldl_cons, List.map_cons, List.sum_cons, ih]; ring

/-- A fold that adds a constant on every element satisfying a predicate is
the accumulator plus the constant times the count of such elements. -/
theorem foldl_ite_countP {α : Type} (p : α → Prop) [DecidablePred p] (c : ℚ) :
    ∀ (l : List α) (a : ℚ),
      l.foldl (fun acc x => if p x then acc + c else acc) a =
        a + c * (l.countP fun x => decide (p x)) := by
  intro l
  induction l with
  | nil => intro a; simp
  | cons x xs ih =>
    intro a
    simp only [List.foldl_cons, List.countP_cons, ih]
    by_cases hp : p x <;> simp [hp] <;> push_cast <;> ring

/-- The dot-product loop of `scoreIntents` over index range sums the same
products as `zipWith` when the vectors have equal length. -/
theorem zipWith_mul_sum_eq (features : List ℚ) :
    ∀ (w : List ℚ), w.length = features.length →
      (List.zipWith (· * ·) w features).sum =
        ((List.range features.length).map fun i => w.getD i 0 * features.getD i 0).sum := by
  induction features with
  | nil => intro w h; simp
  | cons x fs ih =>
    intro w h
    cases w with
    | nil => simp at h
    | cons y ws =>
      simp only [List.zipWith_cons_cons, List.sum_cons, List.length_cons,
        List.range_succ_eq_map, List.map_cons, List.map_map, List.getD_cons_zero]
      rw [ih ws (by simpa using h)]
      congr 1

/-- C3: `scoreIntents` returns one entry per intent whose score is the dot
product of the intent's weight row with the features plus `baseBias` plus
0.15 per positive rule feature; the list is sorted by descending score, and
`decideIntent` selects its first (highest-scoring) entry. -/
theorem c3_scoreIntents_ranking (weights : WeightMap) (features : List ℚ)
    (hshape : ∀ k ∈ intentKeys, ∃ row, weights k = some row ∧ row.length = features.length) :
    (scoreIntents weights features).Perm
      (INTENT_DEFS.map fun intent => (intent.key, specScore weights features intent)) ∧
    (scoreIntents weights features).Sorted (fun a b => b.2 ≤ a.2) ∧
    (∀ text, ∃ top rest,
      scoreIntents weights (extractFeatures text) = top :: rest ∧
      (decideIntent weights text).topIntent = top.1 ∧
      ∀ p ∈ scoreIntents weights (extractFeatures text), p.2 ≤ top.2) := by
  haveI hTot : IsTotal (String × ℚ) (fun a b => b.2 ≤ a.2) := ⟨fun a b => le_total b.2 a.2⟩
  haveI hTrans : IsTrans (String × ℚ) (fun a b => b.2 ≤ a.2) :=
    ⟨fun _ _ _ hab hbc => le_trans hbc hab⟩
  have hidx : ∀ k ∈ intentKeys, ∀ fname ∈ BASE_RULES k,
      (FEATURE_SPECS.findIdx fun f2 => f2.name = fname) < FEATURE_SPECS.length := by decide
  have hsortedAll : ∀ fts, (scoreIntents weights fts).Sorted (fun a b => b.2 ≤ a.2) := by
    intro fts
    exact List.sorted_insertionSort _ _
  have hlenAll : ∀ fts, (scoreIntents weights fts).length = 7 := by
    intro fts
    have := (List.perm_insertionSort (fun a b : String × ℚ => b.2 ≤ a.2)
      (INTENT_DEFS.map fun intent =>
        let w := (weights intent.key).getD []
        let dot := (List.range fts.length).foldl
          (fun acc i => acc + (w.getD i 0) * (fts.getD i 0)) 0
        let ruleFeats := BASE_RULES intent.key
        let ruleBonus := ruleFeats.foldl
          (fun acc fname =>
            let idx := FEATURE_SPECS.findIdx fun f => f.name = fname
            if idx < FEATURE_SPECS.length ∧ 0 < fts.getD idx 0 then acc + 0.15 else acc) 0
        (intent.key, dot + intent.baseBias + ruleBonus))).length_eq
    simpa [scoreIntents] using this
  refine ⟨?_, hsortedAll features, ?_⟩
  · have hmap : (INTENT_DEFS.map fun intent =>
        let w := (weights intent.key).getD []
        let dot := (List.range features.length).foldl
          (fun acc i => acc + (w.getD i 0) * (features.getD i 0)) 0
        let ruleFeats := BASE_RULES intent.key
        let ruleBonus := ruleFeats.foldl
          (fun acc fname =>
            let idx := FEATURE_SPECS.findIdx fun f => f.name = fname
            if idx < FEATURE_SPECS.length ∧ 0 < features.getD idx 0 then acc + 0.15 else acc) 0
        (intent.key, dot + intent.baseBias + ruleBonus)) =
      (INTENT_DEFS.map fun intent => (intent.key, specScore weights features intent)) := by
      apply List.map_congr_left
      intro d hd
      have hkmem : d.key ∈ intentKeys := List.mem_map_of_mem _ hd
      obtain ⟨row, hrow, hlen⟩ := hshape d.key hkmem
      simp only [hrow, Option.getD_some, Prod.mk.injEq, true_and]
      rw [foldl_add_map, foldl_ite_countP, specScore, hrow, Option.getD_some,
        zipWith_mul_sum_eq features row hlen]
      have hcnt : (List.countP (fun fname =>
          decide ((FEATURE_SPECS.findIdx fun f => f.name = fname) < FEATURE_SPECS.length ∧
            0 < features.getD (FEATURE_SPECS.findIdx fun f => f.name = fname) 0))
            (BASE_RULES d.key)) =
          (List.countP (fun fname =>
            decide (0 < features.getD (FEATURE_SPECS.findIdx fun f => f.name = fname) 0))
            (BASE_RULES d.key)) := by
        apply List.countP_congr
        intro fname hf
        simp only [decide_eq_true_eq]
        exact and_iff_right (hidx d.key hkmem fname hf)
      rw [hcnt]
      ring
    simp only [scoreIntents]
    rw [hmap]
    exact List.perm_insertionSort _ _
  · intro text
    cases hr : scoreIntents weights (extractFeatures text) with
    | nil =>
      have := hlenAll (extractFeatures text)
      rw [hr] at this
      simp at this
    | cons top rest =>
      refine ⟨top, rest, rfl, ?_, ?_⟩
      · simp only [decideIntent, hr, List.getD_cons_zero]
      · intro p hp
        have hs := hsortedAll (extractFeatures text)
        rw [hr, List.sorted_cons] at hs
        rcases List.mem_cons.mp hp with rfl | hmem
        · exact le_refl _
        · exact hs.1 p hmem

/-- C3 witness: the shape hypothesis holds for the zero weight map with a
length-15 feature vector, and the ranked list is a permutation of the
per-intent spec scores. -/
theorem c3_witness :
    (scoreIntents zeroWeightMap (List.replicate 15 0)).Perm
      (INTENT_DEFS.map fun intent =>
        (intent.key, specScore zeroWeightMap (List.replicate 15 0) intent)) :=
  (c3_scoreIntents_ranking zeroWeightMap (List.replicate 15 0)
    (fun k hk => ⟨List.replicate 15 0, by simp [zeroWeightMap, hk], by simp⟩)).1

/-- `extractFeatures` in closed form: the token-feature base vector with
exactly one length bucket set according to the word count. -/
theorem extractFeatures_eq (s : String) :
    extractFeatures s =
      (if wordCount s ≤ 3 then (featureBase (lowerTrim s)).set 12 1
       else if wordCount s ≤ 12 then (featureBase (lowerTrim s)).set 13 1
       else (featureBase (lowerTrim s)).set 14 1) := by
  have h12 : (FEATURE_SPECS.findIdx fun f => f.name = "len_short") = 12 := by decide
  have h13 : (FEATURE_SPECS.findIdx fun f => f.name = "len_medium") = 13 := by decide
  have h14 : (FEATURE_SPECS.findIdx fun f => f.name = "len_long") = 14 := by decide
  simp only [extractFeatures, featureBase, lowerTrim, wordCount, h12, h13, h14]

/-- The base vector read at any in-range position is the token-feature
test of the corresponding spec. -/
theorem featureBase_getD (text : String) (i : ℕ) (hi : i < 15) :
    (featureBase text).getD i 0 =
      (if jsStartsWith (FEATURE_SPECS.getD i ⟨"", [], 1⟩).name "len_" then (0 : ℚ)
       else if (FEATURE_SPECS.getD i ⟨"", [], 1⟩).tokens.any (fun tok => jsIncludes text tok)
       then 1 else 0) := by
  interval_cases i <;> rfl

/-- Every entry of the base vector is 0 or 1. -/
theorem featureBase_mem01 (text : String) : ∀ x ∈ featureBase text, x = 0 ∨ x = 1 := by
  intro x hx
  obtain ⟨spec, _, rfl⟩ := List.mem_map.mp hx
  split_ifs <;> simp

/-- Reading a `set` position back. -/
theorem getD_set_self (l : List ℚ) (i : ℕ) (a : ℚ) (h : i < l.length) :
    (l.set i a).getD i 0 = a := by
  rw [List.getD_eq_getElem?_getD, List.getElem?_set_self h, Option.getD_some]

/-- Reading a position other than the `set` one. -/
theorem getD_set_other (l : List ℚ) (i j : ℕ) (a : ℚ) (h : i ≠ j) :
    (l.set i a).getD j 0 = l.getD j 0 := by
  rw [List.getD_eq_getElem?_getD, List.getElem?_set_ne h, ← List.getD_eq_getElem?_getD]

/-- The three length specs are exactly the ones whose name starts with
`len_`. -/
theorem lenSpec_startsWith : ∀ i, 12 ≤ i → i < 15 →
    jsStartsWith (FEATURE_SPECS.getD i ⟨"", [], 1⟩).name "len_" = true := by decide

/-- Properties common to the three length-bucket branches of
`extractFeatures`: binary entries, the token-feature characterisation away
from the length entries, zero at the unset length entries and one at the
set length entry. -/
theorem set_len_entries (t : String) (j : ℕ) (hj1 : 12 ≤ j) (hj2 : j < 15) :
    ((featureBase t).set j 1).length = 15 ∧
    (∀ x ∈ (featureBase t).set j 1, x = 0 ∨ x = 1) ∧
    (∀ i, i < 15 → jsStartsWith (FEATURE_SPECS.getD i ⟨"", [], 1⟩).name "len_" = false →
      (((featureBase t).set j 1).getD i 0 = 1 ↔
        ∃ tok ∈ (FEATURE_SPECS.getD i ⟨"", [], 1⟩).tokens, jsIncludes t tok = true)) ∧
    (∀ i, 12 ≤ i → i < 15 → i ≠ j → ((featureBase t).set j 1).getD i 0 = 0) ∧
    ((featureBase t).set j 1).getD j 0 = 1 := by
  have hbl : (featureBase t).length = 15 := by simp [featureBase, FEATURE_SPECS]
  refine ⟨by simp [hbl], ?_, ?_, ?_, getD_set_self _ _ _ (by rw [hbl]; omega)⟩
  · intro x hx
    rcases List.mem_or_eq_of_mem_set hx with hx | rfl
    · exact featureBase_mem01 t x hx
    · right; rfl
  · intro i hi hsw
    have hne : j ≠ i := by
      intro hji
      rw [lenSpec_startsWith i (hji ▸ hj1) hi] at hsw
      cases hsw
    rw [getD_set_other _ _ _ _ hne, featureBase_getD t i hi, hsw]
    by_cases hany : ((FEATURE_SPECS.getD i ⟨"", [], 1⟩).tokens.any
        fun tok => jsIncludes t tok) = true
    · rw [List.any_eq_true] at hany
      simp [← List.any_eq_true, hany]
    · rw [List.any_eq_true] at hany
      simp [← List.any_eq_true, hany]
  · intro i h12i hi15 hij
    rw [getD_set_other _ _ _ _ (Ne.symm hij), featureBase_getD t i hi15,
      lenSpec_startsWith i h12i hi15]
    simp

/-- C2: `extractFeatures` always returns a vector of length 15 (the length
of `FEATURE_SPECS`) with entries in `{0, 1}`; each non-length entry is 1
exactly when the lowercased trimmed input contains one of the feature's
tokens as a substring; and exactly one of the three length buckets is set:
`len_short` iff the word count is at most 3 (including the empty string,
word count 0), `len_medium` iff it is between 4 and 12, and `len_long` iff
it exceeds 12. -/
theorem c2_extractFeatures_binary (s : String) :
    (extractFeatures s).length = 15 ∧
    (∀ x ∈ extractFeatures s, x = 0 ∨ x = 1) ∧
    (∀ i, i < 15 → jsStartsWith (FEATURE_SPECS.getD i ⟨"", [], 1⟩).name "len_" = false →
      ((extractFeatures s).getD i 0 = 1 ↔
        ∃ tok ∈ (FEATURE_SPECS.getD i ⟨"", [], 1⟩).tokens,
          jsIncludes (lowerTrim s) tok = true)) ∧
    ((extractFeatures s).getD 12 0 = 1 ↔ wordCount s ≤ 3) ∧
    ((extractFeatures s).getD 13 0 = 1 ↔ 4 ≤ wordCount s ∧ wordCount s ≤ 12) ∧
    ((extractFeatures s).getD 14 0 = 1 ↔ 12 < wordCount s) ∧
    (extractFeatures s).getD 12 0 + (extractFeatures s).getD 13 0 +
      (extractFeatures s).getD 14 0 = 1 := by
  by_cases h3 : wordCount s ≤ 3
  · have hv : extractFeatures s = (featureBase (lowerTrim s)).set 12 1 := by
      rw [extractFeatures_eq, if_pos h3]
    obtain ⟨hl, h01, htok, hzero, hone⟩ :=
      set_len_entries (lowerTrim s) 12 (le_refl 12) (by norm_num)
    rw [hv]
    refine ⟨hl, h01, htok, ?_, ?_, ?_, ?_⟩
    · rw [hone]
      simp [h3]
    · rw [hzero 13 (by norm_num) (by norm_num) (by norm_num)]
      norm_num
      omega
    · rw [hzero 14 (by norm_num) (by norm_num) (by norm_num)]
      norm_num
      omega
    · rw [hone, hzero 13 (by norm_num) (by norm_num) (by norm_num),
        hzero 14 (by norm_num) (by norm_num) (by norm_num)]
      norm_num
  · by_cases h12 : wordCount s ≤ 12
    · have hv : extractFeatures s = (featureBase (lowerTrim s)).set 13 1 := by
        rw [extractFeatures_eq, if_neg h3, if_pos h12]
      obtain ⟨hl, h01, htok, hzero, hone⟩ :=
        set_len_entries (lowerTrim s) 13 (by norm_num) (by norm_num)
      rw [hv]
      refine ⟨hl, h01, htok, ?_, ?_, ?_, ?_⟩
      · rw [hzero 12 (by norm_num) (by norm_num) (by norm_num)]
        norm_num
        omega
      · rw [hone]
        simp
        omega
      · rw [hzero 14 (by norm_num) (by norm_num) (by norm_num)]
        norm_num
        omega
      · rw [hone, hzero 12 (by norm_num) (by norm_num) (by norm_num),
          hzero 14 (by norm_num) (by norm_num) (by norm_num)]
        norm_num
    · have hv : extractFeatures s = (featureBase (lowerTrim s)).set 14 1 := by
        rw [extractFeatures_eq, if_neg h3, if_neg h12]
      obtain ⟨hl, h01, htok, hzero, hone⟩ :=
        set_len_entries (lowerTrim s) 14 (by norm_num) (by norm_num)
      rw [hv]
      refine ⟨hl, h01, htok, ?_, ?_, ?_, ?_⟩
      · rw [hzero 12 (by norm_num) (by norm_num) (by norm_num)]
        norm_num
        omega
      · rw [hzero 13 (by norm_num) (by norm_num) (by norm_num)]
        norm_num
        omega
      · rw [hone]
        simp
        omega
      · rw [hone, hzero 12 (by norm_num) (by norm_num) (by norm_num),
          hzero 13 (by norm_num) (by norm_num) (by norm_num)]
        norm_num

/-- C2 witness: on `hello`, the extracted vector has `kw_hello` set (its
index 0 is a non-length feature containing the token `hello`) and, with a
single word, the `len_short` bucket set. -/
theorem c2_witness :
    (extractFeatures "hello").length = 15 ∧
    ((extractFeatures "hello").getD 0 0 = 1 ↔
      ∃ tok ∈ (FEATURE_SPECS.getD 0 ⟨"", [], 1⟩).tokens,
        jsIncludes (lowerTrim "hello") tok = true) ∧
    ((extractFeatures "hello").getD 12 0 = 1 ↔ wordCount "hello" ≤ 3) := by
  have h := c2_extractFeatures_binary "hello"
  exact ⟨h.1, h.2.2.1 0 (by norm_num) (by decide), h.2.2.2.1⟩

end Chat
